import Mathlib

/-!
Verification development for the codemod rule engine of the PatchMind
repository (`botdas/codemod_botda/agent.py`).

The engine operates on raw text via regular-expression search and replace.
We embed it shallowly: file contents and paths are lists of characters
(`Str`), each compiled regex constant of the source is embedded as a
deterministic matcher function (possible because every `\s*` / `\s+` in
those patterns is followed by a character disjoint from whitespace, so the
greedy scan never needs to backtrack), and `re.sub` is embedded as a
leftmost, non-overlapping scan (`scanSub`).  Python `str` operations such
as `in`, `strip`, `lower`, `startswith` are embedded on the ASCII
fragment, which is the fragment the source exercises.
-/

set_option maxRecDepth 20000

namespace Codemod

/-- Text is modelled as a list of characters. -/
abbrev Str := List Char

/-- Whitespace class of Python's `\s` (ASCII fragment): space, tab,
newline, carriage return, vertical tab, form feed. -/
def isSpaceChar (c : Char) : Bool :=
  c = ' ' || c = '\t' || c = '\n' || c = '\r' || c = '\x0b' || c = '\x0c'

/-- Quote class `['"]` used by the import patterns. -/
def isQuote (c : Char) : Bool :=
  c = '\'' || c = '"'

/-- Python's `needle in haystack` substring test. -/
def strHas (needle : Str) : Str → Bool
  | [] => needle.isEmpty
  | c :: rest => needle.isPrefixOf (c :: rest) || strHas needle rest

/-- Consume an exact literal, returning the remaining input. -/
def eatLit : Str → Str → Option Str
  | [], s => some s
  | _ :: _, [] => none
  | p :: ps, c :: cs => if p = c then eatLit ps cs else none

/-- Greedily consume `\s*`, returning the count consumed and the rest. -/
def eatWS0 : Str → Nat × Str
  | [] => (0, [])
  | c :: cs =>
    if isSpaceChar c then
      let r := eatWS0 cs
      (r.1 + 1, r.2)
    else (0, c :: cs)

/-- Greedily consume `\s+` (at least one whitespace character). -/
def eatWS1 (s : Str) : Option (Nat × Str) :=
  match s with
  | [] => none
  | c :: cs =>
    if isSpaceChar c then
      let r := eatWS0 cs
      some (r.1 + 1, r.2)
    else none

/-- Count consumed by the trailing `;?` of the import patterns. -/
def semiCount (s : Str) : Nat :=
  match s with
  | ';' :: _ => 1
  | _ => 0

/-- Literal fragment `import`. -/
def litImport : Str := "import".data

/-- Literal fragment `useRouter`. -/
def litUseRouter : Str := "useRouter".data

/-- Literal fragment `from`. -/
def litFrom : Str := "from".data

/-- Literal fragment `next/router`. -/
def litNextRouter : Str := "next/router".data

/-- Literal fragment `Router`. -/
def litRouterWord : Str := "Router".data

/-- Literal fragment `next/legacy/image`. -/
def litNextLegacy : Str := "next/legacy/image".data

/-- Matcher for `NextRouterNamedToNavigation.PATTERN`, the source regex
`import\s*\{\s*useRouter\s*\}\s*from\s*['"]next/router['"];?`, tried at
the start of the input; returns the number of characters matched. -/
def matchP1 (s : Str) : Option Nat :=
  match eatLit litImport s with
  | none => none
  | some s1 =>
    let w1 := eatWS0 s1
    match w1.2 with
    | '{' :: s2 =>
      let w2 := eatWS0 s2
      match eatLit litUseRouter w2.2 with
      | none => none
      | some s3 =>
        let w3 := eatWS0 s3
        match w3.2 with
        | '}' :: s4 =>
          let w4 := eatWS0 s4
          match eatLit litFrom w4.2 with
          | none => none
          | some s5 =>
            let w5 := eatWS0 s5
            match w5.2 with
            | q1 :: s6 =>
              if isQuote q1 then
                match eatLit litNextRouter s6 with
                | none => none
                | some s7 =>
                  match s7 with
                  | q2 :: s8 =>
                    if isQuote q2 then
                      some (6 + w1.1 + 1 + w2.1 + 9 + w3.1 + 1 + w4.1 +
                            4 + w5.1 + 1 + 11 + 1 + semiCount s8)
                    else none
                  | [] => none
              else none
            | [] => none
        | _ => none
    | _ => none

/-- Matcher for `NextRouterDefaultToNavigationWarning.PATTERN`, the source
regex `import\s+Router\s+from\s+['"]next/router['"];?`. -/
def matchP2 (s : Str) : Option Nat :=
  match eatLit litImport s with
  | none => none
  | some s1 =>
    match eatWS1 s1 with
    | none => none
    | some (w1, s2) =>
      match eatLit litRouterWord s2 with
      | none => none
      | some s3 =>
        match eatWS1 s3 with
        | none => none
        | some (w2, s4) =>
          match eatLit litFrom s4 with
          | none => none
          | some s5 =>
            match eatWS1 s5 with
            | none => none
            | some (w3, s6) =>
              match s6 with
              | q1 :: s7 =>
                if isQuote q1 then
                  match eatLit litNextRouter s7 with
                  | none => none
                  | some s8 =>
                    match s8 with
                    | q2 :: s9 =>
                      if isQuote q2 then
                        some (6 + w1 + 6 + w2 + 4 + w3 + 1 + 11 + 1 + semiCount s9)
                      else none
                    | [] => none
                else none
              | [] => none

/-- Matcher for `NextLegacyImageToImage.PATTERN`, the source regex
`from\s+['"]next/legacy/image['"]`. -/
def matchP3 (s : Str) : Option Nat :=
  match eatLit litFrom s with
  | none => none
  | some s1 =>
    match eatWS1 s1 with
    | none => none
    | some (w1, s2) =>
      match s2 with
      | q1 :: s3 =>
        if isQuote q1 then
          match eatLit litNextLegacy s3 with
          | none => none
          | some s4 =>
            match s4 with
            | q2 :: _ =>
              if isQuote q2 then some (4 + w1 + 1 + 17 + 1) else none
            | [] => none
        else none
      | [] => none

/-- Python `re.search`: try the matcher at every position. -/
def searchM (m : Str → Option Nat) : Str → Bool
  | [] => (m []).isSome
  | c :: rest => (m (c :: rest)).isSome || searchM m rest

/-- Fuelled leftmost non-overlapping substitution (`re.sub`).  The
built-in patterns always consume at least one character, so the fuel
`s.length + 1` supplied by `scanSub` is never exhausted. -/
def scanSubF (m : Str → Option Nat) (repl : Str) : Nat → Str → Str
  | 0, _ => []
  | _ + 1, [] => []
  | f + 1, c :: rest =>
    match m (c :: rest) with
    | some n => repl ++ scanSubF m repl f ((c :: rest).drop n)
    | none => c :: scanSubF m repl f rest

/-- Leftmost non-overlapping substitution with sufficient fuel. -/
def scanSub (m : Str → Option Nat) (repl : Str) (s : Str) : Str :=
  scanSubF m repl (s.length + 1) s

/-- Per-topic compacted guidance: deduplicated URL list plus sorted
keyword-hint set, as built by `_compact_guidance_from_artifacts`. -/
structure TopicInfo where
  urls : List Str
  hints : List Str
  deriving Repr, DecidableEq

/-- Rule context built by `_context()`: package identity, version pair and
the compacted guidance map (`hints`). -/
structure Ctx where
  package_name : Str
  current_version : Str
  target_version : Str
  hints : List (Str × TopicInfo)
  deriving Repr

/-- Package-name prefixes used by the `applicable` gates. -/
def litNext : Str := "next".data

/-- Package-name prefix for the React rule. -/
def litReact : Str := "react".data

/-- Replacement text of rule 1: `import { useRouter } from 'next/navigation';`. -/
def replNav : Str := "import { useRouter } from 'next/navigation';".data

/-- Canonical full match of rule 1's pattern (the Scenario A input line):
`import { useRouter } from 'next/router';`. -/
def litRouterImport : Str := "import { useRouter } from 'next/router';".data

/-- Marker comment of rule 2. -/
def marker2 : Str := "// TODO(next-migrate)".data

/-- Advisory block inserted by rule 2. -/
def note2 : Str :=
  ("// TODO(next-migrate): `import Router from 'next/router'` is legacy (Pages Router).\n" ++
   "// Consider refactoring to App Router APIs from 'next/navigation' (e.g., `useRouter`, `redirect`).\n").data

/-- Note string reported by rule 1. -/
def note1 : Str := "Switched useRouter import to next/navigation (App Router).".data

/-- Note string reported by rule 2. -/
def note2Advice : Str := "Annotated legacy default Router import; manual refactor recommended.".data

/-- Replacement text of rule 3: `from 'next/image'`. -/
def replImage : Str := "from 'next/image'".data

/-- Note string reported by rule 3. -/
def note3 : Str := "Replaced next/legacy/image with next/image.".data

/-- Marker comment of rule 4. -/
def marker4 : Str := "// TODO(next-config)".data

/-- Keyword gating rule 4. -/
def litExperimental : Str := "experimental".data

/-- Leading fragment of rule 4's advisory (before the interpolated target
version). -/
def note4a : Str := "// TODO(next-config): Check experimental flags against target version ".data

/-- Trailing fragment of rule 4's advisory (after the interpolated target
version). -/
def note4b : Str := ". Confirm replacements/renames in docs.\n".data

/-- Leading fragment of rule 4's note string. -/
def note4NoteA : Str := "Annotated experimental flags for Next ".data

/-- Trailing fragment of rule 4's note string. -/
def note4NoteB : Str := ".".data

/-- Marker comment of rule 5. -/
def marker5 : Str := "// TODO(react-migrate)".data

/-- Literal pattern of rule 5 (`ReactDOM\.render\(` has no metacharacters
once the escapes are resolved). -/
def litReactRender : Str := "ReactDOM.render(".data

/-- Advisory block inserted by rule 5. -/
def note5 : Str :=
  "// TODO(react-migrate): ReactDOM.render is legacy. Consider migrate to React 18 `createRoot` API.\n".data

/-- Note string reported by rule 5. -/
def note5Advice : Str := "Annotated ReactDOM.render usage with createRoot guidance.".data

/-- Suffixes recognising `re.search(r"next\.config\.m?js$", path)`: the
anchor `$` matches at the end of the string or just before one trailing
newline, so the search succeeds exactly when the path ends in
`next.config.js` or `next.config.mjs`, optionally followed by one final
newline. -/
def isNextConfigPath (path : Str) : Bool :=
  "next.config.js".data.isSuffixOf path || "next.config.mjs".data.isSuffixOf path ||
  "next.config.js\n".data.isSuffixOf path || "next.config.mjs\n".data.isSuffixOf path

/-- Substitution of rule 1. -/
def subP1 (s : Str) : Str := scanSub matchP1 replNav s

/-- Substitution of rule 3. -/
def subP3 (s : Str) : Str := scanSub matchP3 replImage s

/-- Built-in rule interface: a name plus the `applicable` / `transform`
pair (`class Rule` in the source). -/
structure BRule where
  name : Str
  applicable : Str → Str → Ctx → Bool
  transform : Str → Str → Ctx → Str × Nat × List Str

/-- Rule 1, `NextRouterNamedToNavigation`: rewrite the named
`useRouter` import from `next/router` to `next/navigation`; count 1 if
the content changed, 0 otherwise. -/
def nextRouterNamedToNavigation : BRule where
  name := "next-router-named-import".data
  applicable := fun _path content ctx =>
    litNext.isPrefixOf ctx.package_name && searchM matchP1 content
  transform := fun _path content _ctx =>
    let new := subP1 content
    if new = content then (new, 0, []) else (new, 1, [note1])

/-- Rule 2, `NextRouterDefaultToNavigationWarning`: prepend an advisory
block for a default `Router` import, idempotent via its marker string. -/
def nextRouterDefaultToNavigationWarning : BRule where
  name := "next-router-default-import-warning".data
  applicable := fun _path content ctx =>
    litNext.isPrefixOf ctx.package_name && searchM matchP2 content
  transform := fun _path content _ctx =>
    if strHas marker2 content then (content, 0, [])
    else (note2 ++ content, 1, [note2Advice])

/-- Rule 3, `NextLegacyImageToImage`: rewrite `next/legacy/image` module
paths to `next/image`. -/
def nextLegacyImageToImage : BRule where
  name := "next-legacy-image".data
  applicable := fun _path content ctx =>
    litNext.isPrefixOf ctx.package_name && searchM matchP3 content
  transform := fun _path content _ctx =>
    let new := subP3 content
    if new = content then (new, 0, []) else (new, 1, [note3])

/-- Rule 4, `NextConfigExperimentalNote`: on `next.config.*` paths,
prepend an advisory (interpolating the context's target version) when the
content mentions `experimental` and the marker is absent. -/
def nextConfigExperimentalNote : BRule where
  name := "next-config-experimental-note".data
  applicable := fun path _content ctx =>
    litNext.isPrefixOf ctx.package_name && isNextConfigPath path
  transform := fun _path content ctx =>
    if strHas litExperimental content && !(strHas marker4 content) then
      (note4a ++ ctx.target_version ++ note4b ++ content, 1,
       [note4NoteA ++ ctx.target_version ++ note4NoteB])
    else (content, 0, [])

/-- Rule 5, `ReactCreateRootNote`: prepend a `createRoot` advisory when a
`ReactDOM.render(` call is present, idempotent via its marker. -/
def reactCreateRootNote : BRule where
  name := "react-create-root-note".data
  applicable := fun _path content ctx =>
    litReact.isPrefixOf ctx.package_name && strHas litReactRender content
  transform := fun _path content _ctx =>
    if strHas marker5 content then (content, 0, [])
    else (note5 ++ content, 1, [note5Advice])

/-- The registration-ordered built-in rule list `_BUILTIN_RULES`. -/
def builtinRules : List BRule :=
  [nextRouterNamedToNavigation, nextRouterDefaultToNavigationWarning,
   nextLegacyImageToImage, nextConfigExperimentalNote, reactCreateRootNote]

/-- Built-in phase of `_apply_rules_to_file`: fold the built-in rules, in
order, over the evolving content, accumulating change count and notes. -/
def applyBuiltinRules (path content : Str) (ctx : Ctx) : Str × Nat × List Str :=
  builtinRules.foldl
    (fun acc r =>
      if r.applicable path acc.1 ctx then
        let t := r.transform path acc.1 ctx
        (t.1, acc.2.1 + t.2.1, acc.2.2 ++ t.2.2)
      else acc)
    (content, 0, [])

/-! Custom rules carry a runtime pattern compiled with
`re.compile(cr["pattern"], re.MULTILINE)`.  We embed a subset of Python's
regex language sufficient for the engine's contract: literal characters,
escapes, `.`, character classes, the quantifiers `*`, `+`, `?`, and the
multiline anchors `^` / `$`.  Constructs outside the subset (groups,
alternation, lazy quantifiers, braced repetition counts) are reported as
compile errors; genuinely malformed patterns (unbalanced `)`,
unterminated `[`, trailing backslash, a quantifier with nothing to
repeat, a backreference with no group) are compile errors in Python as
well.  Replacement templates are expanded group-free: since no pattern in
the subset has groups, any `\digit` or `\g` reference raises Python's
invalid-group-reference error, embedded as a substitution failure. -/

/-- Character-class item of the custom-pattern subset. -/
inductive CItem where
  | lit (c : Char)
  | range (a b : Char)
  | ws
  | notWs
  | digit
  | notDigit
  | word
  | notWord
  deriving Repr, DecidableEq

/-- Character class: negation flag plus items. -/
structure CharClass where
  neg : Bool
  items : List CItem
  deriving Repr, DecidableEq

/-- Word characters of Python's `\w` (ASCII fragment). -/
def isWordChar (c : Char) : Bool :=
  c.isAlphanum || c = '_'

/-- Test one class item against a character. -/
def citemTest (it : CItem) (c : Char) : Bool :=
  match it with
  | .lit d => c = d
  | .range a b => a ≤ c && c ≤ b
  | .ws => isSpaceChar c
  | .notWs => !isSpaceChar c
  | .digit => c.isDigit
  | .notDigit => !c.isDigit
  | .word => isWordChar c
  | .notWord => !isWordChar c

/-- Test a character class against a character. -/
def CharClass.test (cc : CharClass) (c : Char) : Bool :=
  let hit := cc.items.any (fun it => citemTest it c)
  if cc.neg then !hit else hit

/-- Class for a single literal character. -/
def litClass (c : Char) : CharClass := ⟨false, [.lit c]⟩

/-- Class for `.` (any character except newline; `re.DOTALL` is not set). -/
def dotClass : CharClass := ⟨true, [.lit '\n']⟩

/-- Compiled atom of the custom-pattern subset.  `plus` is desugared at
parse time into `one` followed by `star`. -/
inductive RAtom where
  | one (cc : CharClass)
  | opt (cc : CharClass)
  | star (cc : CharClass)
  | anchorStart
  | anchorEnd
  deriving Repr, DecidableEq

/-- Resolve a pattern escape `\c` outside a class to a class, or `none`
when Python rejects it (unknown letter escapes, backreferences with no
group) or it is outside the embedded subset (`\b`, `\A`, `\Z`). -/
def escClass (c : Char) : Option CharClass :=
  if c = 's' then some ⟨false, [.ws]⟩
  else if c = 'S' then some ⟨true, [.ws]⟩
  else if c = 'd' then some ⟨false, [.digit]⟩
  else if c = 'D' then some ⟨true, [.digit]⟩
  else if c = 'w' then some ⟨false, [.word]⟩
  else if c = 'W' then some ⟨true, [.word]⟩
  else if c = 'n' then some (litClass '\n')
  else if c = 't' then some (litClass '\t')
  else if c = 'r' then some (litClass '\r')
  else if c = 'f' then some (litClass '\x0c')
  else if c = 'v' then some (litClass '\x0b')
  else if c.isAlphanum then none
  else some (litClass c)

/-- Resolve an escape inside a character class. -/
def escItem (c : Char) : Option (List CItem) :=
  if c = 's' then some [.ws]
  else if c = 'S' then some [.notWs]
  else if c = 'd' then some [.digit]
  else if c = 'D' then some [.notDigit]
  else if c = 'w' then some [.word]
  else if c = 'W' then some [.notWord]
  else if c = 'n' then some [.lit '\n']
  else if c = 't' then some [.lit '\t']
  else if c = 'r' then some [.lit '\r']
  else if c = 'f' then some [.lit '\x0c']
  else if c = 'v' then some [.lit '\x0b']
  else if c.isAlphanum then none
  else some [.lit c]

/-- Parse the body of a `[...]` class after any leading `^`; returns the
items and the rest of the pattern after the closing `]`. -/
def parseClassItems : Nat → Str → List CItem → Except Str (List CItem × Str)
  | 0, _, _ => .error "unbalanced character set".data
  | _ + 1, [], _ => .error "unterminated character set".data
  | f + 1, c :: rest, acc =>
    if c = ']' then .ok (acc.reverse, rest)
    else if c = '\\' then
      match rest with
      | [] => .error "bad escape (end of pattern)".data
      | e :: rest2 =>
        match escItem e with
        | none => .error "bad escape".data
        | some its => parseClassItems f rest2 (its.reverse ++ acc)
    else
      match rest with
      | '-' :: d :: rest2 =>
        if d = ']' then parseClassItems f rest2 (.lit '-' :: .lit c :: acc)
        else parseClassItems f rest2 (.range c d :: acc)
      | _ => parseClassItems f rest (.lit c :: acc)

/-- Fuelled parser for the custom-pattern subset; produces the atom list
or a compile error, mirroring `re.compile` failure. -/
def parsePatF : Nat → Str → List RAtom → Except Str (List RAtom)
  | 0, _, _ => .error "pattern too deep".data
  | _ + 1, [], acc => .ok acc.reverse
  | f + 1, c :: rest, acc =>
    if c = '*' then
      match acc with
      | .one cc :: acc2 => parsePatF f rest (.star cc :: acc2)
      | _ => .error "nothing to repeat".data
    else if c = '+' then
      match acc with
      | .one cc :: acc2 => parsePatF f rest (.star cc :: .one cc :: acc2)
      | _ => .error "nothing to repeat".data
    else if c = '?' then
      match acc with
      | .one cc :: acc2 => parsePatF f rest (.opt cc :: acc2)
      | _ => .error "nothing to repeat".data
    else if c = '^' then parsePatF f rest (.anchorStart :: acc)
    else if c = '$' then parsePatF f rest (.anchorEnd :: acc)
    else if c = '(' then .error "unsupported group".data
    else if c = ')' then .error "unbalanced parenthesis".data
    else if c = '|' then .error "unsupported alternation".data
    else if c = '[' then
      match rest with
      | '^' :: rest2 =>
        match parseClassItems f rest2 [] with
        | .error e => .error e
        | .ok (its, rest3) => parsePatF f rest3 (.one ⟨true, its⟩ :: acc)
      | _ =>
        match parseClassItems f rest [] with
        | .error e => .error e
        | .ok (its, rest3) => parsePatF f rest3 (.one ⟨false, its⟩ :: acc)
    else if c = '.' then parsePatF f rest (.one dotClass :: acc)
    else if c = '\\' then
      match rest with
      | [] => .error "bad escape (end of pattern)".data
      | e :: rest2 =>
        match escClass e with
        | none => .error "bad escape or reference".data
        | some cc => parsePatF f rest2 (.one cc :: acc)
    else parsePatF f rest (.one (litClass c) :: acc)

/-- Compile a custom pattern (`re.compile(pattern, re.MULTILINE)`). -/
def compilePattern (pat : Str) : Except Str (List RAtom) :=
  parsePatF (pat.length + 1) pat []

/-- True when `^` may match here under `re.MULTILINE`: at the start of the
string or right after a newline (`prev` is the previously consumed
character). -/
def atLineStart (prev : Option Char) : Bool :=
  match prev with
  | none => true
  | some c => c = '\n'

/-- True when `$` may match here under `re.MULTILINE`: at the end of the
string or right before a newline. -/
def atLineEnd (s : Str) : Bool :=
  match s with
  | [] => true
  | c :: _ => c = '\n'

/-- Previously consumed character after advancing `n` characters into
`s`, starting from `prev`. -/
def prevAfter (s : Str) (n : Nat) (prev : Option Char) : Option Char :=
  match (s.take n).getLast? with
  | some c => some c
  | none => prev

/-- Backtracking matcher for an atom list at a fixed position; returns
the number of characters consumed by the leftmost-longest (greedy with
backtracking) match.  Quantified atoms always consume exactly one
character per repetition, so recursion is structural on the atom list. -/
def matchAtoms : List RAtom → Str → Option Char → Option Nat
  | [], _, _ => some 0
  | .anchorStart :: as, s, prev =>
    if atLineStart prev then matchAtoms as s prev else none
  | .anchorEnd :: as, s, prev =>
    if atLineEnd s then matchAtoms as s prev else none
  | .one cc :: as, s, _ =>
    match s with
    | [] => none
    | c :: cs =>
      if cc.test c then (matchAtoms as cs (some c)).map (· + 1) else none
  | .opt cc :: as, s, prev =>
    match s with
    | [] => matchAtoms as [] prev
    | c :: cs =>
      if cc.test c then
        match matchAtoms as cs (some c) with
        | some n => some (n + 1)
        | none => matchAtoms as s prev
      else matchAtoms as s prev
  | .star cc :: as, s, prev =>
    let munch := (s.takeWhile (fun c => cc.test c)).length
    ((List.range (munch + 1)).reverse).findSome?
      (fun k => (matchAtoms as (s.drop k) (prevAfter s k prev)).map (· + k))

/-- Expand a group-free replacement template, mirroring Python's
template parsing inside `re.sub`; `\digit` and `\g` raise the
invalid-group-reference error because the compiled subset has no groups,
and unknown letter escapes raise a bad-escape error. -/
def parseTemplate : Str → Except Str Str
  | [] => .ok []
  | '\\' :: rest =>
    match rest with
    | [] => .error "bad escape (end of pattern)".data
    | e :: rest2 =>
      if e = '\\' then (parseTemplate rest2).map (fun t => '\\' :: t)
      else if e = 'n' then (parseTemplate rest2).map (fun t => '\n' :: t)
      else if e = 't' then (parseTemplate rest2).map (fun t => '\t' :: t)
      else if e = 'r' then (parseTemplate rest2).map (fun t => '\r' :: t)
      else if e = 'f' then (parseTemplate rest2).map (fun t => '\x0c' :: t)
      else if e = 'v' then (parseTemplate rest2).map (fun t => '\x0b' :: t)
      else if e = 'a' then (parseTemplate rest2).map (fun t => '\x07' :: t)
      else if e = 'b' then (parseTemplate rest2).map (fun t => '\x08' :: t)
      else if e.isDigit || e = 'g' then .error "invalid group reference".data
      else if e.isAlpha then .error "bad escape".data
      else (parseTemplate rest2).map (fun t => '\\' :: e :: t)
  | c :: rest => (parseTemplate rest).map (fun t => c :: t)

/-- Fuelled substitution scan for custom patterns.  Follows Python 3.7+
`re.sub` semantics: leftmost matches, an empty match emits the
replacement and advances one character. -/
def csubF (m : Str → Option Char → Option Nat) (repl : Str) :
    Nat → Str → Option Char → Str
  | 0, _, _ => []
  | _ + 1, [], prev =>
    match m [] prev with
    | some _ => repl
    | none => []
  | f + 1, c :: rest, prev =>
    match m (c :: rest) prev with
    | some 0 => repl ++ c :: csubF m repl f rest (some c)
    | some (n + 1) =>
      repl ++ csubF m repl f ((c :: rest).drop (n + 1)) (prevAfter (c :: rest) (n + 1) prev)
    | none => c :: csubF m repl f rest (some c)

/-- Substitution for a compiled custom pattern over a whole string. -/
def csub (atoms : List RAtom) (repl : Str) (s : Str) : Str :=
  csubF (fun t prev => matchAtoms atoms t prev) repl (s.length + 1) s none

/-- Custom rule payload `{name, pattern, replacement}`. -/
structure CustomRule where
  name : Str
  pattern : Str
  replacement : Str
  deriving Repr

/-- Note appended when a custom rule changes the content. -/
def customAppliedNote (name : Str) : Str :=
  "Custom rule applied: ".data ++ name

/-- Note appended when a custom rule's compile or substitution raises
(`f"Custom rule error ({name}): {e}"`); the embedded error text `e` is
the engine's message. -/
def customErrNote (name e : Str) : Str :=
  "Custom rule error (".data ++ name ++ "): ".data ++ e

/-- One step of the custom-rule loop in `_apply_rules_to_file`: compile
the pattern, run the substitution, count a change only when the content
differs; any failure leaves the content and count untouched and appends
an error note. -/
def applyCustomRule (acc : Str × Nat × List Str) (cr : CustomRule) : Str × Nat × List Str :=
  let content := acc.1
  let changes := acc.2.1
  let notes := acc.2.2
  match compilePattern cr.pattern with
  | .error e => (content, changes, notes ++ [customErrNote cr.name e])
  | .ok atoms =>
    match parseTemplate cr.replacement with
    | .error e => (content, changes, notes ++ [customErrNote cr.name e])
    | .ok repl =>
      let new := csub atoms repl content
      if new = content then (new, changes, notes)
      else (new, changes + 1, notes ++ [customAppliedNote cr.name])

/-- Custom phase of `_apply_rules_to_file`. -/
def applyCustomRules (rules : List CustomRule) (acc : Str × Nat × List Str) :
    Str × Nat × List Str :=
  rules.foldl applyCustomRule acc

/-- The transform pipeline `_apply_rules_to_file`: built-in rules in
registration order over the evolving content, then custom rules. -/
def applyRulesToFile (ctx : Ctx) (customs : List CustomRule) (path content : Str) :
    Str × Nat × List Str :=
  applyCustomRules customs (applyBuiltinRules path content ctx)

/-- Guidance reference `{url, snippet}` inside `rag_guidance`. -/
structure GuidanceRef where
  url : Str
  snippet : Str
  deriving Repr, DecidableEq

/-- Guidance entry `{topic, references}`. -/
structure GuidanceEntry where
  topic : Str
  references : List GuidanceRef
  deriving Repr, DecidableEq

/-- Parser artifacts consumed by the engine: the two prioritized file
sets and the retrieved guidance entries. -/
structure Artifacts where
  risky_first : List Str
  all_package_files : List Str
  rag_guidance : List GuidanceEntry
  deriving Repr

/-- Fixed keyword vocabulary scanned over guidance snippets, in source
order; note that `useRouter` keeps its mixed case in the source. -/
def keywordList : List Str :=
  ["deprecated", "migration", "replace", "rename", "router",
   "app router", "config", "env", "server actions", "useRouter"].map (fun s => s.data)

/-- Python `str.lower` (ASCII fragment). -/
def pyLower (s : Str) : Str := s.map Char.toLower

/-- Lexicographic comparison of strings by character code, as used by
Python's `sorted`. -/
def ltStr : Str → Str → Bool
  | [], [] => false
  | [], _ :: _ => true
  | _ :: _, [] => false
  | a :: as, b :: bs => if a < b then true else if b < a then false else ltStr as bs

/-- Insert into a sorted list of strings. -/
def insertSorted (x : Str) : List Str → List Str
  | [] => [x]
  | y :: ys => if ltStr x y then x :: y :: ys else y :: insertSorted x ys

/-- Sort a list of strings ascending (Python `sorted`). -/
def strSorted (l : List Str) : List Str := l.foldr insertSorted []

/-- Remove duplicates keeping the first occurrence
(`list(dict.fromkeys(...))`). -/
def dedupKeepFirst (l : List Str) : List Str :=
  l.foldl (fun acc u => if acc.contains u then acc else acc ++ [u]) []

/-- Keyword hints found in one reference: every vocabulary keyword that
occurs as a substring of the lowercased snippet. -/
def refHints (r : GuidanceRef) : List Str :=
  keywordList.filter (fun kw => strHas kw (pyLower r.snippet))

/-- Accumulate the url list (skipping empty urls) and the raw hint list
over one entry's references. -/
def entryUrlsHints (refs : List GuidanceRef) : List Str × List Str :=
  refs.foldl
    (fun acc r =>
      (acc.1 ++ (if r.url.isEmpty then [] else [r.url]), acc.2 ++ refHints r))
    ([], [])

/-- Insert-or-replace in a topic map, mirroring Python dict assignment
(insertion order preserved; re-assignment keeps the original slot). -/
def upsertTopic (topics : List (Str × TopicInfo)) (k : Str) (v : TopicInfo) :
    List (Str × TopicInfo) :=
  if topics.any (fun p => p.1 == k) then
    topics.map (fun p => if p.1 == k then (k, v) else p)
  else topics ++ [(k, v)]

/-- The Guidance Compactor `_compact_guidance_from_artifacts`: map each
topic to its deduplicated ordered urls and its sorted unique keyword
hints (`sorted(list(set(hints)))`). -/
def compact_guidance_from_artifacts (entries : List GuidanceEntry) :
    List (Str × TopicInfo) :=
  entries.foldl
    (fun topics g =>
      let uh := entryUrlsHints g.references
      upsertTopic topics g.topic ⟨dedupKeepFirst uh.1, strSorted (dedupKeepFirst uh.2)⟩)
    []

/-- Diff batch entry.  The source stores `before_hash`/`after_hash`
(truncated SHA-256 fingerprints of the two texts) and `patch` (their
unified diff); we retain the two texts those fields are derived from,
together with the change count and notes. -/
structure DiffEntry where
  file : Str
  before : Str
  after : Str
  changes : Nat
  notes : List Str
  deriving Repr, DecidableEq

/-- Session state `_STATE`.  `repo = none` models the unloaded (falsy)
initial `{}`; a loaded repository is its well-formed `files` list of
`(path, content)` pairs. -/
structure AgentState where
  repo : Option (List (Str × Str))
  artifacts : Option Artifacts
  dry_run : Bool
  package_name : Str
  current_version : Str
  target_version : Str
  last_guidance : List (Str × TopicInfo)
  custom_rules : List CustomRule
  last_diffs : List DiffEntry
  modified_repo : Option (List (Str × Str))

/-- Build the rule context from session state (`_context()`). -/
def contextOf (st : AgentState) : Ctx :=
  ⟨st.package_name, st.current_version, st.target_version, st.last_guidance⟩

/-- The fixed source-code extension list `CODE_EXT`. -/
def codeExts : List Str :=
  [".js", ".jsx", ".ts", ".tsx", ".mjs", ".cjs", ".cts", ".mts"].map (fun s => s.data)

/-- File filter `_is_code_file`: a recognised extension or the
`next.config.m?js$` pattern. -/
def is_code_file (path : Str) : Bool :=
  codeExts.any (fun e => e.isSuffixOf path) || isNextConfigPath path

/-- The File Selector `_should_consider_file`: prioritized sets when
either is non-empty, else the code-file fallback. -/
def should_consider_file (path : Str) (art : Artifacts) : Bool :=
  if !art.risky_first.isEmpty || !art.all_package_files.isEmpty then
    art.risky_first.contains path || art.all_package_files.contains path
  else is_code_file path

/-- Result of `generate_diffs`. -/
inductive GenResult where
  | ok (diff_count : Nat) (files_changed : List Str)
  | error (message : Str)
  deriving Repr, DecidableEq

/-- Result of `apply_diffs`. -/
inductive ApplyResult where
  | ok (applied_files : List Str) (count : Nat)
  | error (message : Str)
  deriving Repr, DecidableEq

/-- Result of `set_dry_run`. -/
inductive DryRunResult where
  | ok (dry_run : Bool)
  | error (message : Str)
  deriving Repr, DecidableEq

/-- The diff generator `generate_diffs`: for every repository file that
passes both `_should_consider_file` and `_is_code_file`, run the
pipeline; keep an entry only when the change count is positive and the
content actually differs; cache the batch in `last_diffs`. -/
def generate_diffs (st : AgentState) : AgentState × GenResult :=
  match st.repo with
  | none => (st, .error "load_repo_json first".data)
  | some files =>
    match st.artifacts with
    | none => (st, .error "load_parser_artifacts first".data)
    | some art =>
      let diffs := files.filterMap (fun f =>
        if should_consider_file f.1 art && is_code_file f.1 then
          let r := applyRulesToFile (contextOf st) st.custom_rules f.1 f.2
          if 0 < r.2.1 ∧ r.1 ≠ f.2 then
            some { file := f.1, before := f.2, after := r.1,
                   changes := r.2.1, notes := r.2.2 }
          else none
        else none)
      ({st with last_diffs := diffs}, .ok diffs.length (diffs.map (fun d => d.file)))

/-- Index of the last file entry with the given path, mirroring the dict
comprehension `{f["path"]: i for i, f in enumerate(...)}` in which later
entries overwrite earlier ones. -/
def lastIdxOf (p : Str) : List (Str × Str) → Option Nat
  | [] => none
  | f :: fs =>
    match lastIdxOf p fs with
    | some j => some (j + 1)
    | none => if f.1 = p then some 0 else none

/-- Error message of the dry-run precondition. -/
def dryRunErrMsg : Str := "dry_run is true; set_dry_run false to apply".data

/-- Error message of the missing-diffs precondition. -/
def noDiffsErrMsg : Str := "no diffs; run generate_diffs first".data

/-- Mutation loop of `apply_diffs` over the cached diff batch: for each
referenced path present in the index (built once from the fresh copy),
re-run the pipeline on the copy's current content and write the result
back when it differs, recording the path.  The `files.get? i` miss case
is unreachable in `apply_diffs` (the index comes from the same list) and
is modelled as a skip. -/
def applyLoop (ctx : Ctx) (customs : List CustomRule) (files0 : List (Str × Str)) :
    List DiffEntry → List (Str × Str) → List Str → List (Str × Str) × List Str
  | [], files, applied => (files, applied)
  | d :: ds, files, applied =>
    match lastIdxOf d.file files0 with
    | none => applyLoop ctx customs files0 ds files applied
    | some i =>
      match files.get? i with
      | none => applyLoop ctx customs files0 ds files applied
      | some f =>
        let after := (applyRulesToFile ctx customs d.file f.2).1
        if after = f.2 then applyLoop ctx customs files0 ds files applied
        else
          applyLoop ctx customs files0 ds (files.set i (f.1, after)) (applied ++ [d.file])

/-- The Apply/Commit Controller `apply_diffs`: gate on the dry-run flag,
then on a non-empty cached diff batch; on success re-derive every
referenced file's content on a fresh copy of the original snapshot and
store the copy as the modified snapshot. -/
def apply_diffs (st : AgentState) : AgentState × ApplyResult :=
  if st.dry_run then (st, .error dryRunErrMsg)
  else if st.last_diffs.isEmpty then (st, .error noDiffsErrMsg)
  else
    let files0 := (st.repo).getD []
    let r := applyLoop (contextOf st) st.custom_rules files0 st.last_diffs files0 []
    ({st with modified_repo := some r.1}, .ok r.2 r.2.length)

/-- Python `str.strip` (ASCII whitespace fragment). -/
def pyStrip (s : Str) : Str :=
  ((s.dropWhile isSpaceChar).reverse.dropWhile isSpaceChar).reverse

/-- Truthy spellings accepted by `set_dry_run`. -/
def truthStrings : List Str :=
  ["1", "true", "yes", "y", "on"].map (fun s => s.data)

/-- The `set_dry_run` tool: trim and lowercase the input, set the flag to
membership in the truthy list, and always answer ok. -/
def set_dry_run (st : AgentState) (flag_str : Str) : AgentState × DryRunResult :=
  let flag := truthStrings.contains (pyLower (pyStrip flag_str))
  ({st with dry_run := flag}, .ok flag)

/-- The `add_custom_rule` tool's state effect (field-complete payloads). -/
def add_custom_rule (st : AgentState) (r : CustomRule) : AgentState :=
  {st with custom_rules := st.custom_rules ++ [r]}

/-- Scenario A context: package `next`, target version `14.0.0`. -/
def scenarioACtx : Ctx := ⟨"next".data, [], "14.0.0".data, []⟩

/-- Scenario A path. -/
def scenarioAPath : Str := "pages/app.tsx".data

/-- Witness state: empty unloaded session with dry-run still true. -/
def stEmptyDry : AgentState := ⟨none, none, true, [], [], [], [], [], [], none⟩

/-- Witness state: dry-run false, no cached diffs. -/
def stEmptyNoDiffs : AgentState := ⟨none, none, false, [], [], [], [], [], [], none⟩

/-- Session operations quantified over in the frame property: diff
generation, apply, toggling dry-run, registering custom rules. -/
inductive SessionOp where
  | gen
  | applyOp
  | setDry (flag : Str)
  | addRule (r : CustomRule)

/-- State effect of one session operation. -/
def stepOp (st : AgentState) : SessionOp → AgentState
  | .gen => (generate_diffs st).1
  | .applyOp => (apply_diffs st).1
  | .setDry f => (set_dry_run st f).1
  | .addRule r => add_custom_rule st r

/-- Run a sequence of session operations. -/
def runOps (st : AgentState) (ops : List SessionOp) : AgentState :=
  ops.foldl stepOp st

/-- Scenario A repository fixture. -/
def repoA : List (Str × Str) := [(scenarioAPath, litRouterImport)]

/-- Artifacts with both prioritized sets empty. -/
def artNoPriority : Artifacts := ⟨[], [], []⟩

/-- Scenario A session state. -/
def stScenarioA : AgentState :=
  ⟨some repoA, some artNoPriority, false, litNext, [], "14.0.0".data, [], [], [], none⟩

/-- Diff entry produced for Scenario A. -/
def diffA : DiffEntry := ⟨scenarioAPath, litRouterImport, replNav, 1, [note1]⟩

/-- Session state after previewing Scenario A with dry-run already
false. -/
def stPreviewA : AgentState := (generate_diffs stScenarioA).1

/-- Paths selected by the diff-generation loop: the source guard is the
conjunction `_should_consider_file(p, artifacts) and _is_code_file(p)`. -/
def processed_paths (files : List (Str × Str)) (art : Artifacts) : List Str :=
  (files.filter (fun f => should_consider_file f.1 art && is_code_file f.1)).map (fun f => f.1)

/-- Non-code path fixture. -/
def pathReadme : Str := "README.md".data

/-- Artifacts prioritizing a non-code file. -/
def artPrioritized : Artifacts := ⟨[pathReadme], [], []⟩

/-- Repository containing only the prioritized non-code file, whose
content the named-import rule would rewrite. -/
def repoReadme : List (Str × Str) := [(pathReadme, litRouterImport)]

/-- Session state for the selector counterexample. -/
def stReadme : AgentState :=
  ⟨some repoReadme, some artPrioritized, true, litNext, [], [], [], [], [], none⟩

/-- Code path fixture. -/
def pathTs : Str := "src/a.ts".data

/-- Mixed repository fixture for the fallback tier. -/
def repoMixed : List (Str × Str) := [(pathReadme, []), (pathTs, [])]

/-- Working custom rule fixture (Scenario C shape). -/
def crGood : CustomRule := ⟨"rename-foo".data, "from 'lib/foo'".data, "from 'lib/bar'".data⟩

/-- Second working custom rule fixture. -/
def crTail : CustomRule := ⟨"rename-baz".data, "qux".data, "baz".data⟩

/-- Custom rule with a malformed pattern (Python: unterminated
subpattern). -/
def crBad : CustomRule := ⟨"broken".data, "(".data, "x".data⟩

/-- Compile error message for an opening parenthesis in the embedded
subset. -/
def errGroupMsg : Str := "unsupported group".data

/-- Sample pipeline accumulator for the C8 witness. -/
def accC8 : Str × Nat × List Str := ("from 'lib/foo' and qux".data, 0, [])

/-- Failing rule context for idempotence: the artifact's target version
carries router-import text that rule 4 interpolates into content. -/
def ctxC1 : Ctx := ⟨litNext, [], litRouterImport, []⟩

/-- Failing path (a Next config file). -/
def pathC1 : Str := "next.config.js".data

/-- Failing content (mentions `experimental`). -/
def contentC1 : Str := "experimental".data

/-- First pipeline run on the failing input. -/
def runC1 : Str × Nat × List Str := applyRulesToFile ctxC1 [] pathC1 contentC1

/-- The keyword whose detection is broken. -/
def kwUseRouter : Str := "useRouter".data

/-- Guidance topic fixture. -/
def topicT : Str := "t".data

/-- Guidance url fixture. -/
def urlU : Str := "u".data

/-- Snippet that contains the keyword `useRouter` verbatim. -/
def snipC9 : Str := "useRouter".data

/-- The only hint the compactor actually produces for that snippet. -/
def hintRouter : Str := "router".data

/-- Guidance entry fixture for C9. -/
def geC9 : GuidanceEntry := ⟨topicT, [⟨urlU, snipC9⟩]⟩

/-- Specification-side lookup: content of the first (under unique paths,
the only) entry with the given path. -/
def lookupPath (files : List (Str × Str)) (p : Str) : Option Str :=
  (files.find? (fun f => f.1 == p)).map (fun f => f.2)

/-- Specification of the applied-files list: the cached batch entries
whose re-derived content differs from the snapshot content, in batch
order. -/
def appliedSpec (ctx : Ctx) (customs : List CustomRule) (files0 : List (Str × Str))
    (ds : List DiffEntry) : List Str :=
  (ds.filter (fun d =>
    match lookupPath files0 d.file with
    | some c => decide ((applyRulesToFile ctx customs d.file c).1 ≠ c)
    | none => false)).map (fun d => d.file)

/-- The matcher of rule 1 accepts its canonical literal at any position. -/
theorem matchP1_on_lit (w : Str) : matchP1 (litRouterImport ++ w) = some 40 := rfl

theorem matchP1_pos {s : Str} {n : Nat} (h : matchP1 s = some n) : 0 < n := by
  simp only [matchP1] at h
  repeat' split at h
  all_goals first
    | (injection h with h2; omega)
    | exact absurd h (by simp)

/-- The matcher of rule 1 never misses its canonical literal. -/
theorem matchP1_ne_none (w : Str) : matchP1 (litRouterImport ++ w) ≠ none := by
  rw [matchP1_on_lit]
  simp

/-- Splitting a prefix of an append. -/
theorem prefix_split {α : Type} {t a b : List α} (h : t <+: a ++ b) :
    t <+: a ∨ ∃ t2, t = a ++ t2 ∧ t2 <+: b := by
  rcases Nat.le_total t.length a.length with hle | hle
  · exact Or.inl (List.prefix_of_prefix_length_le h (List.prefix_append a b) hle)
  · have ha : a <+: t := List.prefix_of_prefix_length_le (List.prefix_append a b) h hle
    rcases ha with ⟨t2, rfl⟩
    exact Or.inr ⟨t2, rfl, (List.prefix_append_right_inj a).mp h⟩

/-- Splitting an infix of an append: inside the left part, inside the
right part, or crossing the boundary. -/
theorem infix_append_cases {α : Type} {t a b : List α} (h : t <:+: a ++ b) :
    t <:+: a ∨ t <:+: b ∨
      ∃ t1 t2, t = t1 ++ t2 ∧ t1 ≠ [] ∧ t1 <:+ a ∧ t2 <+: b := by
  induction a with
  | nil => exact Or.inr (Or.inl h)
  | cons x a ih =>
    rcases List.infix_cons_iff.mp h with hp | hi
    · have hp' : t <+: (x :: a) ++ b := by simpa using hp
      rcases prefix_split hp' with hpa | ⟨t2, rfl, ht2⟩
      · exact Or.inl hpa.isInfix
      · by_cases ht2n : t2 = []
        · subst ht2n
          simp only [List.append_nil]
          exact Or.inl List.infix_rfl
        · exact Or.inr (Or.inr ⟨x :: a, t2, rfl, List.cons_ne_nil x a, List.suffix_refl _, ht2⟩)
    · rcases ih hi with h1 | h2 | ⟨t1, t2, rfl, hne, hsuf, hpre⟩
      · exact Or.inl (h1.trans (List.suffix_cons x a).isInfix)
      · exact Or.inr (Or.inl h2)
      · exact Or.inr (Or.inr ⟨t1, t2, rfl, hne, hsuf.trans (List.suffix_cons x a), hpre⟩)

section ScanSubLemmas

variable {m : Str → Option Nat} {repl lit : Str}

/-- Fuel irrelevance for `scanSubF` once the fuel exceeds the input
length (the matcher always consumes at least one character). -/
theorem scanSubF_congr (hpos : ∀ s n, m s = some n → 0 < n) :
    ∀ f g s, s.length < f → s.length < g →
      scanSubF m repl f s = scanSubF m repl g s := by
  intro f
  induction f with
  | zero => intro g s hf; omega
  | succ f ih =>
    intro g s hf hg
    match g, s with
    | g + 1, [] => rfl
    | g + 1, c :: rest =>
      simp only [scanSubF]
      cases hm : m (c :: rest) with
      | some n =>
        have hn := hpos _ _ hm
        have hd : ((c :: rest).drop n).length = (c :: rest).length - n := List.length_drop n _
        simp only [hm]
        have h1 : ((c :: rest).drop n).length < f := by
          rw [hd]
          simp only [List.length_cons] at hf ⊢
          omega
        have h2 : ((c :: rest).drop n).length < g := by
          rw [hd]
          simp only [List.length_cons] at hg ⊢
          omega
        rw [ih g _ h1 h2]
      | none =>
        simp only [hm]
        have h1 : rest.length < f := by simp only [List.length_cons] at hf; omega
        have h2 : rest.length < g := by simp only [List.length_cons] at hg; omega
        rw [ih g _ h1 h2]

/-- Unfolding `scanSub` at a matching position. -/
theorem scanSub_cons_match (hpos : ∀ s n, m s = some n → 0 < n) {c : Char} {rest : Str}
    {n : Nat} (h : m (c :: rest) = some n) :
    scanSub m repl (c :: rest) = repl ++ scanSub m repl ((c :: rest).drop n) := by
  have hn := hpos _ _ h
  unfold scanSub
  simp only [scanSubF, h]
  congr 1
  refine scanSubF_congr hpos _ _ _ ?_ (Nat.lt_succ_self _)
  have hd : ((c :: rest).drop n).length = (c :: rest).length - n := List.length_drop n _
  rw [hd]
  simp only [List.length_cons]
  omega

/-- Unfolding `scanSub` at a non-matching position. -/
theorem scanSub_cons_none {c : Char} {rest : Str} (h : m (c :: rest) = none) :
    scanSub m repl (c :: rest) = c :: scanSub m repl rest := by
  unfold scanSub
  simp only [scanSubF, h, List.length_cons]

/-- Transfer of literal-tail prefixes from the substituted text back to
the input: if a suffix of the literal is a prefix of `scanSub m repl s`,
it was already a prefix of `s`. -/
theorem scanSub_prefix_transfer
    (hpos : ∀ s n, m s = some n → 0 < n)
    (hrepl : repl ≠ [])
    (hlen : lit.length ≤ repl.length)
    (hnp : ¬ lit <+: repl)
    (hheads : ∀ t, t <:+ lit → t ≠ lit → t ≠ [] → t.head? ≠ repl.head?) :
    ∀ s t, t <:+ lit → t <+: scanSub m repl s → t <+: s := by
  have H : ∀ N s t, s.length ≤ N → t <:+ lit → t <+: scanSub m repl s → t <+: s := by
    intro N
    induction N with
    | zero =>
      intro s t hN hsuf hpre
      have : s = [] := List.length_eq_zero.mp (Nat.le_zero.mp hN)
      subst this
      simpa [scanSub, scanSubF] using hpre
    | succ N ih =>
      intro s t hN hsuf hpre
      match s with
      | [] => simpa [scanSub, scanSubF] using hpre
      | c :: rest =>
        cases hm : m (c :: rest) with
        | some n =>
          rw [scanSub_cons_match hpos hm] at hpre
          match t, hpre with
          | [], _ => exact List.nil_prefix
          | a :: t', hpre =>
            exfalso
            have hhead : (a :: t').head? = repl.head? := by
              match repl, hrepl with
              | r :: rr, _ =>
                have := (List.cons_prefix_cons.mp (by simpa using hpre)).1
                simp [this]
            by_cases he : a :: t' = lit
            · subst he
              have : a :: t' <+: repl :=
                List.prefix_of_prefix_length_le hpre (List.prefix_append repl _) hlen
              exact hnp this
            · exact hheads _ hsuf he (List.cons_ne_nil a t') hhead
        | none =>
          rw [scanSub_cons_none hm] at hpre
          match t, hpre with
          | [], _ => exact List.nil_prefix
          | a :: t', hpre =>
            obtain ⟨hac, hp⟩ := List.cons_prefix_cons.mp hpre
            have hsuf' : t' <:+ lit := (List.suffix_cons a t').trans hsuf
            have hlen' : rest.length ≤ N := by
              simp only [List.length_cons] at hN
              omega
            have := ih rest t' hlen' hsuf' hp
            exact hac ▸ List.cons_prefix_cons.mpr ⟨rfl, this⟩
  exact fun s t hsuf hpre => H s.length s t (le_refl _) hsuf hpre

/-- After substitution, no occurrence of the literal remains. -/
theorem scanSub_no_lit
    (hpos : ∀ s n, m s = some n → 0 < n)
    (hrepl : repl ≠ [])
    (hlitne : lit ≠ [])
    (hlen : lit.length ≤ repl.length)
    (hnp : ¬ lit <+: repl)
    (hheads : ∀ t, t <:+ lit → t ≠ lit → t ≠ [] → t.head? ≠ repl.head?)
    (hmatch : ∀ w, m (lit ++ w) ≠ none)
    (hninf : ¬ lit <:+: repl)
    (hsuffpre : ∀ t, t <:+ repl → t ≠ [] → ¬ t <+: lit) :
    ∀ s, ¬ lit <:+: scanSub m repl s := by
  have H : ∀ N s, s.length ≤ N → ¬ lit <:+: scanSub m repl s := by
    intro N
    induction N with
    | zero =>
      intro s hN hinf
      have : s = [] := List.length_eq_zero.mp (Nat.le_zero.mp hN)
      subst this
      simp [scanSub, scanSubF] at hinf
      exact hlitne hinf
    | succ N ih =>
      intro s hN hinf
      match s with
      | [] =>
        simp [scanSub, scanSubF] at hinf
        exact hlitne hinf
      | c :: rest =>
        cases hm : m (c :: rest) with
        | some n =>
          rw [scanSub_cons_match hpos hm] at hinf
          rcases infix_append_cases hinf with h1 | h2 | ⟨t1, t2, heq, hne1, hsuf1, hpre2⟩
          · exact hninf h1
          · have hd : ((c :: rest).drop n).length ≤ N := by
              have hn := hpos _ _ hm
              rw [List.length_drop]
              simp only [List.length_cons] at hN ⊢
              omega
            exact ih _ hd h2
          · exact hsuffpre t1 hsuf1 hne1 ⟨t2, heq.symm⟩
        | none =>
          rw [scanSub_cons_none hm] at hinf
          rcases List.infix_cons_iff.mp hinf with hp | hi
          · match lit, hlitne, hp with
            | a :: lit', _, hp =>
              obtain ⟨hac, hp'⟩ := List.cons_prefix_cons.mp hp
              have hsuf' : lit' <:+ a :: lit' := List.suffix_cons a lit'
              have hp'' : lit' <+: rest :=
                scanSub_prefix_transfer hpos hrepl hlen hnp hheads rest lit' hsuf' hp'
              rcases hp'' with ⟨w, hw⟩
              apply hmatch w
              rw [← hm]
              congr 1
              simp [← hw, hac]
          · have hlen' : rest.length ≤ N := by
              simp only [List.length_cons] at hN
              omega
            exact ih rest hlen' hi
  exact fun s => H s.length s (le_refl _)

/-- The replacement text appears in the output whenever the literal
appears in the input. -/
theorem scanSub_has_repl
    (hpos : ∀ s n, m s = some n → 0 < n)
    (hlitne : lit ≠ [])
    (hmatch : ∀ w, m (lit ++ w) ≠ none) :
    ∀ s, lit <:+: s → ∃ x y, scanSub m repl s = x ++ repl ++ y := by
  have H : ∀ N s, s.length ≤ N → lit <:+: s → ∃ x y, scanSub m repl s = x ++ repl ++ y := by
    intro N
    induction N with
    | zero =>
      intro s hN hinf
      have : s = [] := List.length_eq_zero.mp (Nat.le_zero.mp hN)
      subst this
      exact absurd (List.infix_nil.mp hinf) hlitne
    | succ N ih =>
      intro s hN hinf
      match s with
      | [] => exact absurd (List.infix_nil.mp hinf) hlitne
      | c :: rest =>
        cases hm : m (c :: rest) with
        | some n =>
          exact ⟨[], scanSub m repl ((c :: rest).drop n), by
            rw [scanSub_cons_match hpos hm]; simp⟩
        | none =>
          rcases List.infix_cons_iff.mp hinf with hp | hi
          · rcases hp with ⟨w, hw⟩
            exact absurd (hw ▸ hm) (hmatch w)
          · have hlen' : rest.length ≤ N := by
              simp only [List.length_cons] at hN
              omega
            obtain ⟨x, y, hxy⟩ := ih rest hlen' hi
            exact ⟨c :: x, y, by rw [scanSub_cons_none hm, hxy]; simp⟩
  exact fun s => H s.length s (le_refl _)

/-- A search succeeds whenever the literal occurs. -/
theorem searchM_hits (hmatch : ∀ w, m (lit ++ w) ≠ none) :
    ∀ s, lit <:+: s → searchM m s = true := by
  intro s
  induction s with
  | nil =>
    intro hinf
    have := List.infix_nil.mp hinf
    subst this
    simp only [searchM, Option.isSome]
    cases hm : m [] with
    | none => exact absurd (by simpa using hm) (hmatch [])
    | some n => rfl
  | cons c rest ih =>
    intro hinf
    rcases List.infix_cons_iff.mp hinf with hp | hi
    · rcases hp with ⟨w, hw⟩
      simp only [searchM, Bool.or_eq_true]
      left
      cases hm : m (c :: rest) with
      | none => exact absurd (hw ▸ hm) (hmatch w)
      | some n => rfl
    · simp only [searchM, Bool.or_eq_true]
      exact Or.inr (ih hi)

end ScanSubLemmas

/-- Proper nonempty suffixes of the router-import literal never start
with the replacement's head character. -/
theorem p1_heads : ∀ t, t <:+ litRouterImport → t ≠ litRouterImport → t ≠ [] →
    t.head? ≠ replNav.head? := by
  have hdec : ∀ t ∈ litRouterImport.tails,
      t = litRouterImport ∨ t = [] ∨ t.head? ≠ replNav.head? := by decide
  intro t hsuf hne hnil
  rcases hdec t ((List.mem_tails _ _).mpr hsuf) with h | h | h
  · exact absurd h hne
  · exact absurd h hnil
  · exact h

/-- No nonempty suffix of the replacement is a prefix of the literal. -/
theorem p1_suffpre : ∀ t, t <:+ replNav → t ≠ [] → ¬ t <+: litRouterImport := by
  have hdec : ∀ t ∈ replNav.tails, t = [] ∨ ¬ t <+: litRouterImport := by decide
  intro t hsuf hnil
  rcases hdec t ((List.mem_tails _ _).mpr hsuf) with h | h
  · exact absurd h hnil
  · exact h

/-- After rule 1's substitution no occurrence of the router import
remains. -/
theorem subP1_no_lit (s : Str) : ¬ litRouterImport <:+: subP1 s :=
  @scanSub_no_lit matchP1 replNav litRouterImport (fun _ _ h => matchP1_pos h)
    (by decide) (by decide) (by decide) (by decide) p1_heads matchP1_ne_none
    (by decide) p1_suffpre s

/-- Rule 1's substitution changes any content containing the literal. -/
theorem subP1_ne {s : Str} (h : litRouterImport <:+: s) : subP1 s ≠ s := by
  intro he
  exact subP1_no_lit s (he.symm ▸ h)

/-- Rule 1's substitution introduces the navigation import. -/
theorem subP1_has_nav {s : Str} (h : litRouterImport <:+: s) :
    replNav <:+: subP1 s := by
  obtain ⟨x, y, hxy⟩ :=
    @scanSub_has_repl matchP1 replNav litRouterImport (fun _ _ h => matchP1_pos h)
      (by decide) matchP1_ne_none s h
  exact ⟨x, y, hxy.symm⟩

/-- Rule 1's search succeeds on any content containing the literal. -/
theorem searchP1_hits {s : Str} (h : litRouterImport <:+: s) :
    searchM matchP1 s = true :=
  @searchM_hits matchP1 litRouterImport matchP1_ne_none s h

/-- C7 main theorem. -/
theorem C7_named_import_rule (path content : Str) (ctx : Ctx)
    (hpkg : litNext.isPrefixOf ctx.package_name = true)
    (hocc : litRouterImport <:+: content) :
    nextRouterNamedToNavigation.applicable path content ctx = true ∧
    nextRouterNamedToNavigation.transform path content ctx = (subP1 content, 1, [note1]) ∧
    ¬ litRouterImport <:+: subP1 content ∧ replNav <:+: subP1 content := by
  refine ⟨?_, ?_, subP1_no_lit content, subP1_has_nav hocc⟩
  · simp [nextRouterNamedToNavigation, hpkg, searchP1_hits hocc]
  · have hne := subP1_ne hocc
    simp [nextRouterNamedToNavigation, hne]

/-- C7 witness (Scenario A). -/
theorem C7_witness :
    (nextRouterNamedToNavigation.applicable scenarioAPath litRouterImport scenarioACtx = true ∧
     nextRouterNamedToNavigation.transform scenarioAPath litRouterImport scenarioACtx =
       (subP1 litRouterImport, 1, [note1]) ∧
     ¬ litRouterImport <:+: subP1 litRouterImport ∧ replNav <:+: subP1 litRouterImport) ∧
    subP1 litRouterImport = replNav :=
  ⟨C7_named_import_rule scenarioAPath litRouterImport scenarioACtx (by decide) List.infix_rfl,
   by decide⟩

/-- C10 theorem. -/
theorem C10_set_dry_run (st : AgentState) (s : Str) :
    ((set_dry_run st s).1.dry_run = true ↔ pyLower (pyStrip s) ∈ truthStrings) ∧
    (set_dry_run st s).2 = .ok ((set_dry_run st s).1.dry_run) ∧
    (set_dry_run st s).1 = {st with dry_run := (set_dry_run st s).1.dry_run} ∧
    (set_dry_run st ("ture".data)).1.dry_run = false ∧
    (set_dry_run st ([] : Str)).1.dry_run = false := by
  refine ⟨?_, rfl, rfl, rfl, rfl⟩
  simp only [set_dry_run]
  exact List.elem_iff

/-- C3 theorem. -/
theorem C3_apply_preconditions (st : AgentState) :
    (st.dry_run = true → apply_diffs st = (st, .error dryRunErrMsg)) ∧
    (st.dry_run = false → st.last_diffs = [] → apply_diffs st = (st, .error noDiffsErrMsg)) ∧
    dryRunErrMsg ≠ noDiffsErrMsg := by
  refine ⟨?_, ?_, by decide⟩
  · intro h
    simp [apply_diffs, h]
  · intro h h2
    simp [apply_diffs, h, h2]

/-- C3 witness. -/
theorem C3_witness :
    apply_diffs stEmptyDry = (stEmptyDry, .error dryRunErrMsg) ∧
    apply_diffs stEmptyNoDiffs = (stEmptyNoDiffs, .error noDiffsErrMsg) :=
  ⟨(C3_apply_preconditions stEmptyDry).1 rfl,
   (C3_apply_preconditions stEmptyNoDiffs).2.1 rfl rfl⟩

/-- Each session operation leaves the original snapshot untouched. -/
theorem stepOp_preserves_repo (st : AgentState) (op : SessionOp) :
    (stepOp st op).repo = st.repo := by
  cases op with
  | gen =>
    show (generate_diffs st).1.repo = st.repo
    cases hr : st.repo with
    | none => simp [generate_diffs, hr]
    | some files => cases ha : st.artifacts <;> simp [generate_diffs, hr, ha]
  | applyOp =>
    show (apply_diffs st).1.repo = st.repo
    by_cases hd : st.dry_run
    · simp [apply_diffs, hd]
    · by_cases he : st.last_diffs.isEmpty <;> simp [apply_diffs, hd, he]
  | setDry f => rfl
  | addRule r => rfl

/-- C2 theorem. -/
theorem C2_original_never_mutated (st : AgentState) (ops : List SessionOp) :
    (runOps st ops).repo = st.repo ∧
    (apply_diffs st).1.repo = st.repo ∧
    (apply_diffs st).1 = {st with modified_repo := (apply_diffs st).1.modified_repo} := by
  refine ⟨?_, stepOp_preserves_repo st .applyOp, ?_⟩
  · induction ops generalizing st with
    | nil => rfl
    | cons op ops ih =>
      show (runOps (stepOp st op) ops).repo = st.repo
      rw [ih (stepOp st op), stepOp_preserves_repo]
  · rcases st with ⟨r, a, dr, pn, cv, tv, lg, cr, ld, mr⟩
    by_cases hd : dr
    · subst hd
      simp [apply_diffs]
    · rw [Bool.not_eq_true] at hd
      subst hd
      by_cases he : ld.isEmpty <;> simp [apply_diffs, he]

/-- C6 theorem. -/
theorem C6_batch_entries (st : AgentState) (files : List (Str × Str)) (art : Artifacts)
    (hr : st.repo = some files) (ha : st.artifacts = some art) :
    ∀ d ∈ (generate_diffs st).1.last_diffs, 0 < d.changes ∧ d.after ≠ d.before := by
  intro d hd
  simp only [generate_diffs, hr, ha] at hd
  rw [List.mem_filterMap] at hd
  obtain ⟨f, _, hsome⟩ := hd
  split at hsome
  · split at hsome
    · rename_i hcond
      injection hsome with he
      subst he
      exact ⟨hcond.1, hcond.2⟩
    · cases hsome
  · cases hsome

/-- C6 witness. -/
theorem C6_witness :
    diffA ∈ (generate_diffs stScenarioA).1.last_diffs ∧
    ∀ d ∈ (generate_diffs stScenarioA).1.last_diffs, 0 < d.changes ∧ d.after ≠ d.before :=
  ⟨by decide, C6_batch_entries stScenarioA repoA artNoPriority rfl rfl⟩

/-- C5 counterexample: the prioritized set is non-empty and names a
repository file, yet that file is not processed for diffing (the guard
also requires `_is_code_file`), so the batch stays empty. -/
theorem C5_counterexample :
    (artPrioritized.risky_first ≠ [] ∨ artPrioritized.all_package_files ≠ []) ∧
    pathReadme ∈ artPrioritized.risky_first ∧
    pathReadme ∈ repoReadme.map (fun f => f.1) ∧
    should_consider_file pathReadme artPrioritized = true ∧
    processed_paths repoReadme artPrioritized = [] ∧
    (generate_diffs stReadme).2 = .ok 0 [] :=
  ⟨Or.inl (by decide), by decide, by decide, by decide, by decide, by decide⟩

/-- C5 amended theorem. -/
theorem C5_amended (files : List (Str × Str)) (art : Artifacts) :
    (art.risky_first ≠ [] ∨ art.all_package_files ≠ [] →
      processed_paths files art =
        (files.filter (fun f =>
          (art.risky_first.contains f.1 || art.all_package_files.contains f.1) &&
            is_code_file f.1)).map (fun f => f.1)) ∧
    (art.risky_first = [] → art.all_package_files = [] →
      processed_paths files art =
        (files.filter (fun f => is_code_file f.1)).map (fun f => f.1)) := by
  constructor
  · intro h
    unfold processed_paths
    congr 1
    apply List.filter_congr
    intro f _
    have hc : (!art.risky_first.isEmpty || !art.all_package_files.isEmpty) = true := by
      rcases h with h | h <;> simp [List.isEmpty_iff, h]
    simp [should_consider_file, hc]
  · intro h1 h2
    unfold processed_paths
    congr 1
    apply List.filter_congr
    intro f _
    simp [should_consider_file, h1, h2]

/-- C5 witness. -/
theorem C5_witness :
    processed_paths repoReadme artPrioritized =
      (repoReadme.filter (fun f =>
        (artPrioritized.risky_first.contains f.1 ||
          artPrioritized.all_package_files.contains f.1) && is_code_file f.1)).map
        (fun f => f.1) ∧
    processed_paths repoMixed artNoPriority = [pathTs] := by
  constructor
  · exact (C5_amended repoReadme artPrioritized).1 (Or.inl (by decide))
  · have h := (C5_amended repoMixed artNoPriority).2 rfl rfl
    rw [h]
    decide

/-- C8 theorem. -/
theorem C8_custom_rule_failure_isolated (pre post : List CustomRule) (bad : CustomRule)
    (acc : Str × Nat × List Str) (e : Str)
    (hfail : compilePattern bad.pattern = .error e ∨
      ∃ atoms, compilePattern bad.pattern = .ok atoms ∧
        parseTemplate bad.replacement = .error e) :
    applyCustomRules (pre ++ bad :: post) acc =
      applyCustomRules post
        ((applyCustomRules pre acc).1, (applyCustomRules pre acc).2.1,
         (applyCustomRules pre acc).2.2 ++ [customErrNote bad.name e]) ∧
    (∀ (st : AgentState) (files : List (Str × Str)) (art : Artifacts),
      st.repo = some files → st.artifacts = some art →
      ∃ n fs, (generate_diffs st).2 = GenResult.ok n fs) := by
  constructor
  · unfold applyCustomRules
    rw [List.foldl_append, List.foldl_cons]
    congr 1
    rcases hfail with h | ⟨atoms, h1, h2⟩
    · simp [applyCustomRule, h]
    · simp [applyCustomRule, h1, h2]
  · intro st files art hr ha
    rcases hgen : generate_diffs st with ⟨st2, res⟩
    cases res with
    | ok n fs => exact ⟨n, fs, rfl⟩
    | error msg =>
      simp only [generate_diffs, hr, ha, Prod.mk.injEq] at hgen
      exact absurd hgen.2 (by simp)

/-- C8 witness. -/
theorem C8_witness :
    compilePattern crBad.pattern = .error errGroupMsg ∧
    applyCustomRules [crGood, crBad, crTail] accC8 =
      applyCustomRules [crTail]
        ((applyCustomRules [crGood] accC8).1, (applyCustomRules [crGood] accC8).2.1,
         (applyCustomRules [crGood] accC8).2.2 ++ [customErrNote crBad.name errGroupMsg]) ∧
    (applyCustomRules [crGood, crBad, crTail] accC8).1 = "from 'lib/bar' and baz".data :=
  ⟨rfl,
   (C8_custom_rule_failure_isolated [crGood] [crTail] crBad accC8 errGroupMsg
      (Or.inl rfl)).1,
   by decide⟩

/-- A found last index points at an entry with the queried path. -/
theorem lastIdxOf_get {p : Str} :
    ∀ {files : List (Str × Str)} {i : Nat}, lastIdxOf p files = some i →
      ∃ v, files.get? i = some (p, v) := by
  intro files
  induction files with
  | nil => intro i h; cases h
  | cons f fs ih =>
    intro i h
    simp only [lastIdxOf] at h
    cases hfs : lastIdxOf p fs with
    | some j =>
      rw [hfs] at h
      injection h with hi
      subst hi
      obtain ⟨v, hv⟩ := ih hfs
      exact ⟨v, by simpa using hv⟩
    | none =>
      rw [hfs] at h
      by_cases hp : f.1 = p
      · rw [if_pos hp] at h
        injection h with hi
        subst hi
        rcases f with ⟨f1, f2⟩
        exact ⟨f2, by simp_all⟩
      · rw [if_neg hp] at h
        cases h

/-- The last index of a path is absent exactly when no entry carries the
path. -/
theorem lastIdxOf_none_iff {p : Str} :
    ∀ {files : List (Str × Str)}, lastIdxOf p files = none ↔ ∀ f ∈ files, f.1 ≠ p := by
  intro files
  induction files with
  | nil => simp [lastIdxOf]
  | cons f fs ih =>
    constructor
    · intro h0
      simp only [lastIdxOf] at h0
      cases h : lastIdxOf p fs with
      | some j => rw [h] at h0; cases h0
      | none =>
        rw [h] at h0
        by_cases hp : f.1 = p
        · rw [if_pos hp] at h0
          cases h0
        · intro g hg
          rcases List.mem_cons.mp hg with rfl | hg2
          · exact hp
          · exact (ih.mp h) g hg2
    · intro hall
      simp only [lastIdxOf]
      cases h : lastIdxOf p fs with
      | some j =>
        exfalso
        obtain ⟨v, hv⟩ := lastIdxOf_get h
        exact hall (p, v) (List.mem_cons_of_mem f (List.get?_mem hv)) rfl
      | none =>
        rw [if_neg (hall f (List.mem_cons_self f fs))]

/-- Absent lookup means no entry carries the path. -/
theorem lookupPath_none_iff {p : Str} {files : List (Str × Str)} :
    lookupPath files p = none ↔ ∀ f ∈ files, f.1 ≠ p := by
  simp [lookupPath, List.find?_eq_none]

/-- Head-of-list simplification for `lookupPath` at a matching head. -/
theorem lookupPath_cons_pos {p : Str} {f : Str × Str} {fs : List (Str × Str)}
    (h : f.1 = p) : lookupPath (f :: fs) p = some f.2 := by
  rw [lookupPath, List.find?_cons_of_pos _ (by simpa [beq_iff_eq] using h)]
  rfl

/-- Head-of-list simplification for `lookupPath` at a mismatching head. -/
theorem lookupPath_cons_neg {p : Str} {f : Str × Str} {fs : List (Str × Str)}
    (h : f.1 ≠ p) : lookupPath (f :: fs) p = lookupPath fs p := by
  rw [lookupPath, List.find?_cons_of_neg _ (by simpa [beq_iff_eq] using h)]
  rfl

/-- With unique paths, the entry found at any index determines the
lookup. -/
theorem lookupPath_of_get {p v : Str} :
    ∀ {files : List (Str × Str)} {i : Nat},
      (files.map (fun f => f.1)).Nodup → files.get? i = some (p, v) →
      lookupPath files p = some v := by
  intro files
  induction files with
  | nil => intro i _ h; cases h
  | cons f fs ih =>
    intro i hnd h
    match i, h with
    | 0, h =>
      injection h with h
      subst h
      exact lookupPath_cons_pos rfl
    | i + 1, h =>
      have h' : fs.get? i = some (p, v) := by simpa using h
      have hmem : (p, v) ∈ fs := List.get?_mem h'
      have hne : f.1 ≠ p := by
        intro he
        have hm : p ∈ fs.map (fun f => f.1) := List.mem_map_of_mem _ hmem
        rw [List.map_cons, List.nodup_cons, he] at hnd
        exact hnd.1 hm
      rw [lookupPath_cons_neg hne]
      exact ih (by rw [List.map_cons, List.nodup_cons] at hnd; exact hnd.2) h'

/-- Setting an entry does not affect lookups of other paths. -/
theorem lookupPath_set_ne {p v v0 q : Str} :
    ∀ {files : List (Str × Str)} {i : Nat},
      files.get? i = some (p, v0) → q ≠ p →
      lookupPath (files.set i (p, v)) q = lookupPath files q := by
  intro files
  induction files with
  | nil => intro i h; cases h
  | cons f fs ih =>
    intro i h hne
    match i, h with
    | 0, h =>
      injection h with h
      subst h
      show lookupPath ((p, v) :: fs) q = lookupPath ((p, v0) :: fs) q
      rw [lookupPath_cons_neg (fun e => hne e.symm),
          lookupPath_cons_neg (fun e => hne e.symm)]
    | i + 1, h =>
      have h' : fs.get? i = some (p, v0) := by simpa using h
      show lookupPath (f :: fs.set i (p, v)) q = lookupPath (f :: fs) q
      by_cases hf : f.1 = q
      · rw [lookupPath_cons_pos hf, lookupPath_cons_pos hf]
      · rw [lookupPath_cons_neg hf, lookupPath_cons_neg hf]
        exact ih h' hne

/-- Setting an entry updates the lookup of its own path (unique paths). -/
theorem lookupPath_set_self {p v v0 : Str} :
    ∀ {files : List (Str × Str)} {i : Nat},
      (files.map (fun f => f.1)).Nodup → files.get? i = some (p, v0) →
      lookupPath (files.set i (p, v)) p = some v := by
  intro files
  induction files with
  | nil => intro i _ h; cases h
  | cons f fs ih =>
    intro i hnd h
    match i, h with
    | 0, h =>
      injection h with h
      subst h
      show lookupPath ((p, v) :: fs) p = some v
      exact lookupPath_cons_pos rfl
    | i + 1, h =>
      have h' : fs.get? i = some (p, v0) := by simpa using h
      have hmem : (p, v0) ∈ fs := List.get?_mem h'
      have hne : f.1 ≠ p := by
        intro he
        have hm : p ∈ fs.map (fun f => f.1) := List.mem_map_of_mem _ hmem
        rw [List.map_cons, List.nodup_cons, he] at hnd
        exact hnd.1 hm
      show lookupPath (f :: fs.set i (p, v)) p = some v
      rw [lookupPath_cons_neg hne]
      exact ih (by rw [List.map_cons, List.nodup_cons] at hnd; exact hnd.2) h'

/-- Setting an entry to the same path preserves the path list. -/
theorem map_fst_set {p v v0 : Str} :
    ∀ {files : List (Str × Str)} {i : Nat},
      files.get? i = some (p, v0) →
      (files.set i (p, v)).map (fun f => f.1) = files.map (fun f => f.1) := by
  intro files
  induction files with
  | nil => intro i h; cases h
  | cons f fs ih =>
    intro i h
    match i, h with
    | 0, h =>
      injection h with h
      subst h
      simp [List.set]
    | i + 1, h =>
      have h' : fs.get? i = some (p, v0) := by simpa using h
      show ((f :: fs.set i (p, v)).map fun f => f.1) = (f :: fs).map fun f => f.1
      simp only [List.map_cons]
      rw [ih h']

/-- Full characterisation of the mutation loop of `apply_diffs` under
unique snapshot paths and unique batch paths. -/
theorem applyLoop_spec (ctx : Ctx) (customs : List CustomRule)
    (files0 : List (Str × Str)) (hnd0 : (files0.map (fun f => f.1)).Nodup) :
    ∀ (ds : List DiffEntry) (files : List (Str × Str)) (applied : List Str),
      files.map (fun f => f.1) = files0.map (fun f => f.1) →
      (ds.map (fun d => d.file)).Nodup →
      (∀ d ∈ ds, lookupPath files d.file = lookupPath files0 d.file) →
      (applyLoop ctx customs files0 ds files applied).2 =
          applied ++ appliedSpec ctx customs files0 ds ∧
      (∀ d ∈ ds, ∀ c, lookupPath files0 d.file = some c →
        lookupPath (applyLoop ctx customs files0 ds files applied).1 d.file =
          some (applyRulesToFile ctx customs d.file c).1) ∧
      (∀ p, (∀ d ∈ ds, d.file ≠ p) →
        lookupPath (applyLoop ctx customs files0 ds files applied).1 p =
          lookupPath files p) := by
  intro ds
  induction ds with
  | nil =>
    intro files applied _ _ _
    refine ⟨by simp [applyLoop, appliedSpec], ?_, fun p _ => rfl⟩
    intro d hd
    cases hd
  | cons d ds ih =>
    intro files applied hpaths hnd hdisj
    rw [List.map_cons, List.nodup_cons] at hnd
    obtain ⟨hdhead, hndtail⟩ := hnd
    have hdisjtail : ∀ d' ∈ ds, lookupPath files d'.file = lookupPath files0 d'.file :=
      fun d' hd' => hdisj d' (List.mem_cons_of_mem d hd')
    cases hidx : lastIdxOf d.file files0 with
    | none =>
      have hlook0 : lookupPath files0 d.file = none :=
        lookupPath_none_iff.mpr (lastIdxOf_none_iff.mp hidx)
      have hloop : applyLoop ctx customs files0 (d :: ds) files applied =
          applyLoop ctx customs files0 ds files applied := by
        simp only [applyLoop, hidx]
      have hspec : appliedSpec ctx customs files0 (d :: ds) =
          appliedSpec ctx customs files0 ds := by
        simp only [appliedSpec, List.filter_cons, hlook0]
        simp
      obtain ⟨ih1, ih2, ih3⟩ := ih files applied hpaths hndtail hdisjtail
      refine ⟨by rw [hloop, hspec, ih1], ?_, ?_⟩
      · intro d' hd' c hc
        rcases List.mem_cons.mp hd' with rfl | hd2
        · rw [hlook0] at hc
          cases hc
        · rw [hloop]
          exact ih2 d' hd2 c hc
      · intro p hp
        rw [hloop]
        exact ih3 p (fun d' hd' => hp d' (List.mem_cons_of_mem d hd'))
    | some i =>
      obtain ⟨v0, hg0⟩ := lastIdxOf_get hidx
      have hmap : (files.get? i).map (fun f => f.1) = some d.file := by
        rw [← List.get?_map, hpaths, List.get?_map, hg0]
        rfl
      obtain ⟨f2, hgf⟩ : ∃ f2, files.get? i = some (d.file, f2) := by
        cases hgi : files.get? i with
        | none => rw [hgi] at hmap; cases hmap
        | some f =>
          rcases f with ⟨a, b⟩
          rw [hgi] at hmap
          simp only [Option.map_some'] at hmap
          injection hmap with hm
          exact ⟨b, by rw [hm]⟩
      have hndf : (files.map (fun f => f.1)).Nodup := hpaths ▸ hnd0
      have hlookf : lookupPath files d.file = some f2 := lookupPath_of_get hndf hgf
      have hlook0 : lookupPath files0 d.file = some f2 := by
        rw [← hdisj d (List.mem_cons_self d ds)]
        exact hlookf
      by_cases hch : (applyRulesToFile ctx customs d.file f2).1 = f2
      · have hloop : applyLoop ctx customs files0 (d :: ds) files applied =
            applyLoop ctx customs files0 ds files applied := by
          simp only [applyLoop, hidx, hgf, hch, if_pos]
        have hspec : appliedSpec ctx customs files0 (d :: ds) =
            appliedSpec ctx customs files0 ds := by
          simp only [appliedSpec, List.filter_cons, hlook0, hch]
          simp
        obtain ⟨ih1, ih2, ih3⟩ := ih files applied hpaths hndtail hdisjtail
        refine ⟨by rw [hloop, hspec, ih1], ?_, ?_⟩
        · intro d' hd' c hc
          rcases List.mem_cons.mp hd' with heq | hd2
          · subst heq
            rw [hlook0] at hc
            injection hc with hc
            subst hc
            have hne3 : ∀ d'' ∈ ds, DiffEntry.file d'' ≠ DiffEntry.file d' :=
              fun d'' hd'' he => hdhead (he ▸ List.mem_map_of_mem _ hd'')
            have hkeep := ih3 (DiffEntry.file d') hne3
            rw [hloop, hkeep, hlookf, hch]
          · rw [hloop]
            exact ih2 d' hd2 c hc
        · intro p hp
          rw [hloop]
          exact ih3 p (fun d' hd' => hp d' (List.mem_cons_of_mem d hd'))
      · have hloop : applyLoop ctx customs files0 (d :: ds) files applied =
            applyLoop ctx customs files0 ds
              (files.set i (d.file, (applyRulesToFile ctx customs d.file f2).1))
              (applied ++ [d.file]) := by
          simp only [applyLoop, hidx, hgf, hch, if_neg]
          simp
        have hspec : appliedSpec ctx customs files0 (d :: ds) =
            d.file :: appliedSpec ctx customs files0 ds := by
          simp only [appliedSpec, List.filter_cons, hlook0, hch]
          simp [hch]
        have hpaths' : (files.set i (d.file, (applyRulesToFile ctx customs d.file f2).1)).map
            (fun f => f.1) = files0.map (fun f => f.1) := (map_fst_set hgf).trans hpaths
        have hdisj' : ∀ d' ∈ ds,
            lookupPath (files.set i (d.file, (applyRulesToFile ctx customs d.file f2).1))
              d'.file = lookupPath files0 d'.file := by
          intro d' hd'
          rw [lookupPath_set_ne hgf (fun he => hdhead (he ▸ List.mem_map_of_mem _ hd'))]
          exact hdisjtail d' hd'
        obtain ⟨ih1, ih2, ih3⟩ := ih
          (files.set i (d.file, (applyRulesToFile ctx customs d.file f2).1))
          (applied ++ [d.file]) hpaths' hndtail hdisj'
        refine ⟨by rw [hloop, hspec, ih1]; simp, ?_, ?_⟩
        · intro d' hd' c hc
          rcases List.mem_cons.mp hd' with heq | hd2
          · subst heq
            rw [hlook0] at hc
            injection hc with hc
            subst hc
            have hne3 : ∀ d'' ∈ ds, DiffEntry.file d'' ≠ DiffEntry.file d' :=
              fun d'' hd'' he => hdhead (he ▸ List.mem_map_of_mem _ hd'')
            have hkeep := ih3 (DiffEntry.file d') hne3
            rw [hloop, hkeep]
            exact lookupPath_set_self hndf hgf
          · rw [hloop]
            exact ih2 d' hd2 c hc
        · intro p hp
          rw [hloop, ih3 p (fun d' hd' => hp d' (List.mem_cons_of_mem d hd'))]
          exact lookupPath_set_ne hgf (fun he => hp d (List.mem_cons_self d ds) he.symm)

/-- C4 theorem. -/
theorem C4_apply_rederives (st : AgentState) (files : List (Str × Str))
    (hrepo : st.repo = some files)
    (hndf : (files.map (fun f => f.1)).Nodup)
    (hndd : (st.last_diffs.map (fun d => d.file)).Nodup)
    (hdry : st.dry_run = false)
    (hne : st.last_diffs ≠ []) :
    ∃ files',
      apply_diffs st =
        ({st with modified_repo := some files'},
         .ok (appliedSpec (contextOf st) st.custom_rules files st.last_diffs)
            (appliedSpec (contextOf st) st.custom_rules files st.last_diffs).length) ∧
      (∀ d ∈ st.last_diffs, ∀ c, lookupPath files d.file = some c →
        lookupPath files' d.file =
          some (applyRulesToFile (contextOf st) st.custom_rules d.file c).1) ∧
      (∀ p, (∀ d ∈ st.last_diffs, d.file ≠ p) →
        lookupPath files' p = lookupPath files p) := by
  have hie : st.last_diffs.isEmpty = false := by
    cases h : st.last_diffs with
    | nil => exact absurd h hne
    | cons a l => rfl
  have hfiles0 : (st.repo).getD [] = files := by rw [hrepo]; rfl
  obtain ⟨h1, h2, h3⟩ := applyLoop_spec (contextOf st) st.custom_rules files hndf
    st.last_diffs files [] rfl hndd (fun _ _ => rfl)
  refine ⟨(applyLoop (contextOf st) st.custom_rules files st.last_diffs files []).1,
    ?_, h2, h3⟩
  simp only [apply_diffs, hdry, hie, hfiles0, Bool.false_eq_true, if_false]
  rw [Prod.mk.injEq]
  constructor
  · rfl
  · rw [h1]
    simp

/-- C4 witness. -/
theorem C4_witness :
    ∃ files',
      apply_diffs stPreviewA =
        ({stPreviewA with modified_repo := some files'},
         .ok (appliedSpec (contextOf stPreviewA) stPreviewA.custom_rules repoA
              stPreviewA.last_diffs)
            (appliedSpec (contextOf stPreviewA) stPreviewA.custom_rules repoA
              stPreviewA.last_diffs).length) ∧
      (∀ d ∈ stPreviewA.last_diffs, ∀ c, lookupPath repoA d.file = some c →
        lookupPath files' d.file =
          some (applyRulesToFile (contextOf stPreviewA) stPreviewA.custom_rules d.file c).1) ∧
      (∀ p, (∀ d ∈ stPreviewA.last_diffs, d.file ≠ p) →
        lookupPath files' p = lookupPath repoA p) :=
  C4_apply_rederives stPreviewA repoA rfl (by decide) (by decide) rfl (by decide)

/-- C1 code-bug theorem: the second run rewrites the router import that
rule 4 interpolated from the target version, so it changes the content
and reports one change instead of being a no-op. -/
theorem C1_not_idempotent :
    runC1.1 = note4a ++ litRouterImport ++ note4b ++ contentC1 ∧
    (applyRulesToFile ctxC1 [] pathC1 runC1.1).1 =
      note4a ++ replNav ++ note4b ++ contentC1 ∧
    (applyRulesToFile ctxC1 [] pathC1 runC1.1).1 ≠ runC1.1 ∧
    (applyRulesToFile ctxC1 [] pathC1 runC1.1).2.1 = 1 := by decide

/-- C9 code-bug theorem: `useRouter` belongs to the fixed vocabulary and
occurs verbatim in the snippet, but the compactor searches the
mixed-case needle inside the lowercased snippet, so it is never
detected; only `router` is reported. -/
theorem C9_useRouter_never_detected :
    kwUseRouter ∈ keywordList ∧
    strHas kwUseRouter snipC9 = true ∧
    compact_guidance_from_artifacts [geC9] = [(topicT, ⟨[urlU], [hintRouter]⟩)] ∧
    kwUseRouter ∉ [hintRouter] := by decide

end Codemod
